import Mathlib

/-!
Verification of the LatexBible schedule generator (`latexbible.py`).

The development shallowly embeds the program's core pieces:
* `remove_html_tags_and_entities` — the per-verse cleaning step;
* `hebrew_number` — the Hebrew-numeral renderer;
* the even-allocation logic inside `generate_schedule_csv` (Python floor
  division/modulo semantics are modelled with `Int.fdiv` / `Int.fmod`, and
  division by zero with an explicit error value);
* `get_sefaria_verse_entries` — the retrying fetcher, with the network
  modelled as an oracle giving the outcome of each HTTP attempt;
* `generate_latex_from_schedule` — the checkpoint/progress/resume loop,
  with the on-disk state made explicit and every intermediate disk state
  recorded in a trace.
-/

namespace LatexBible

/-! ## Cleaning: `remove_html_tags_and_entities` -/

/-- Python's regex `\s` class over ASCII, as used by `re.sub` and `str.strip`. -/
def isPySpace (c : Char) : Bool :=
  c = ' ' || c = '\t' || c = '\n' || c = '\x0d' || c = '\x0c' || c = '\x0b'

/-- Whether a `>` occurs before any newline, i.e. whether the non-greedy
regex `<.*?>` (with `.` not crossing newlines) can close a tag opened
just before this suffix. -/
def hasTagClose : List Char → Bool
  | [] => false
  | c :: rest =>
    if c = '>' then true
    else if c = '\n' then false
    else hasTagClose rest

/-- First pass of the cleaner, `re.sub(r'<.*?>', '', text)`, as a one
character at a time automaton.  The flag is true while inside a matched
tag being deleted (which, by the `hasTagClose` guard, always closes at
the first `>`). -/
def removeTagsGo : Bool → List Char → List Char
  | _, [] => []
  | true, c :: rest =>
    if c = '>' then removeTagsGo false rest else removeTagsGo true rest
  | false, c :: rest =>
    if c = '<' && hasTagClose rest then removeTagsGo true rest
    else c :: removeTagsGo false rest

def removeTags (l : List Char) : List Char := removeTagsGo false l

/-- Whether the regex `&[^;\s]+;` matches right after a `&`: a nonempty
run of non-semicolon, non-whitespace characters followed by `;`. -/
def hasEntityClose : List Char → Bool
  | [] => false
  | c :: rest =>
    if c = ';' || isPySpace c then false
    else entityTail rest
where
  entityTail : List Char → Bool
    | [] => false
    | c :: rest =>
      if c = ';' then true
      else if isPySpace c then false
      else entityTail rest

/-- Second pass of the cleaner, `re.sub(r'&[^;\s]+;', '', text)`.  The
flag is true while inside a matched character reference being deleted
(which, by the `hasEntityClose` guard, closes at the first `;` with no
whitespace before it). -/
def removeEntitiesGo : Bool → List Char → List Char
  | _, [] => []
  | true, c :: rest =>
    if c = ';' then removeEntitiesGo false rest else removeEntitiesGo true rest
  | false, c :: rest =>
    if c = '&' && hasEntityClose rest then removeEntitiesGo true rest
    else c :: removeEntitiesGo false rest

def removeEntities (l : List Char) : List Char := removeEntitiesGo false l

/-- Python `str.strip()`: drop whitespace from both ends. -/
def pyStrip (l : List Char) : List Char :=
  ((l.dropWhile isPySpace).reverse.dropWhile isPySpace).reverse

/-- latexbible.py, `remove_html_tags_and_entities`: strip `<...>` tags,
strip `&...;` character references, then trim surrounding whitespace. -/
def remove_html_tags_and_entities (s : String) : String :=
  ⟨pyStrip (removeEntities (removeTags s.data))⟩

/-- latexbible.py, `escape_latex_special_chars`: first replace every
backslash with `\textbackslash{}`, then every underscore with `\_`. -/
def escape_latex_special_chars (s : String) : String :=
  ⟨replUnderscore (replBackslash s.data)⟩
where
  /-- `text.replace('\\', '\\textbackslash{}')` -/
  replBackslash : List Char → List Char
    | [] => []
    | c :: rest =>
      if c = '\\' then
        '\\' :: 't' :: 'e' :: 'x' :: 't' :: 'b' :: 'a' :: 'c' :: 'k' :: 's' ::
          'l' :: 'a' :: 's' :: 'h' :: '\x7b' :: '\x7d' :: replBackslash rest
      else c :: replBackslash rest
  /-- `.replace('_', '\\_')` -/
  replUnderscore : List Char → List Char
    | [] => []
    | c :: rest =>
      if c = '_' then '\\' :: '_' :: replUnderscore rest
      else c :: replUnderscore rest

/-! ## Hebrew numerals: `hebrew_number` -/

/-- The `hebrew_letters` lookup dictionary; `hl n` is
`hebrew_letters.get(n, '')`, i.e. the letter for `n` or the empty string
when `n` has no entry. -/
def hl : Nat → String
  | 1 => "א" | 2 => "ב" | 3 => "ג" | 4 => "ד" | 5 => "ה"
  | 6 => "ו" | 7 => "ז" | 8 => "ח" | 9 => "ט"
  | 10 => "י" | 20 => "כ" | 30 => "ל" | 40 => "מ" | 50 => "נ"
  | 60 => "ס" | 70 => "ע" | 80 => "פ" | 90 => "צ"
  | 100 => "ק" | 200 => "ר" | 300 => "ש" | 400 => "ת"
  | _ => ""

/-- latexbible.py, `hebrew_number`: special-case 15 and 16, otherwise
emit the letters for the hundreds, tens and units components in order,
each looked up with an empty-string default. -/
def hebrew_number (num : Nat) : String :=
  if num = 15 then "טו"
  else if num = 16 then "טז"
  else
    let r1 := if 100 ≤ num then hl ((num / 100) * 100) else ""
    let num1 := if 100 ≤ num then num % 100 else num
    let r2 := if 10 ≤ num1 then hl ((num1 / 10) * 10) else ""
    let num2 := if 10 ≤ num1 then num1 % 10 else num1
    let r3 := if num2 ≠ 0 then hl num2 else ""
    r1 ++ r2 ++ r3

/-! ## Even allocation (`generate_schedule_csv`, lines 92–103)

The Python code is
```
daily_counts = [len(all_verses) // total_days] * total_days
for i in range(len(all_verses) % total_days):
    daily_counts[i] += 1
portions = []
idx = 0
for i in range(total_days):
    portion = all_verses[idx:idx + daily_counts[i]]
    portions.append((day, portion))
    idx += daily_counts[i]
```
`total_days` is a Python `int`, so `//` and `%` follow floor-division
semantics (`Int.fdiv` / `Int.fmod`) and `// 0` raises `ZeroDivisionError`;
`[x] * n` for `n ≤ 0` is the empty list, and `range(n)` for `n ≤ 0` is
empty. -/

/-- Error raised by the allocation step.  The code contains no
`InvalidWindowError`; the only failure is Python's `ZeroDivisionError`
from `len(all_verses) // total_days` when `total_days == 0`. -/
inductive AllocError where
  | zeroDivisionError
deriving DecidableEq

/-- Increment the first `r` elements of a list, modelling the loop
`for i in range(r): daily_counts[i] += 1`. -/
def bump : Nat → List Nat → List Nat
  | _, [] => []
  | 0, xs => xs
  | r + 1, x :: xs => (x + 1) :: bump r xs

/-- The `daily_counts` list for `u` units over `d` days, `d` an integer
with Python semantics: `[u // d] * d` then the first `u % d` entries
incremented.  (For `d < 0` the replicated list is empty, so the result is
empty, exactly as in Python.) -/
def daily_countsI (u : Nat) (d : Int) : List Nat :=
  bump ((u : Int).fmod d).toNat (List.replicate d.toNat ((u : Int).fdiv d).toNat)

/-- The slicing loop: `portions.append(all_verses[idx:idx+c]); idx += c`,
one slice per entry of `daily_counts`. -/
def portionsGo (units : List α) : List Nat → Nat → List (List α)
  | [], _ => []
  | c :: cs, idx => (units.drop idx).take c :: portionsGo units cs (idx + c)

/-- The allocation step with full Python semantics over an integer day
count: `ZeroDivisionError` for zero days, otherwise the contiguous
slices prescribed by `daily_counts`. -/
def allocateE (units : List α) (d : Int) : Except AllocError (List (List α)) :=
  if d = 0 then .error .zeroDivisionError
  else .ok (portionsGo units (daily_countsI units.length d) 0)

/-- `daily_counts` specialised to a natural day count. -/
def daily_counts (u d : Nat) : List Nat :=
  bump (u % d) (List.replicate d (u / d))

/-- The allocation specialised to a positive natural day count (the case
the schedule generator actually reaches). -/
def allocate (units : List α) (d : Nat) : List (List α) :=
  portionsGo units (daily_counts units.length d) 0

/-! ## The fetcher: `get_sefaria_verse_entries`

The function iterates over the comma-separated sub-references of `ref`.
For each one it performs up to `retries` HTTP attempts (breaking on a 200
status, sleeping `2 ** attempt` seconds after any other status or any
exception); the `for`/`else` fall-through logs a warning and `continue`s
when every attempt failed.  A successful response is parsed inside a
`try` block that appends `(section[0], n, cleaned)` tuples to the shared
`verse_entries` list; any exception during parsing is logged and the loop
moves to the next sub-reference, keeping whatever entries were appended
before the exception.

The network is modelled by an oracle assigning to each sub-reference the
list of outcomes of its successive HTTP attempts, and JSON payloads by an
explicit value type. -/

/-- A JSON value as produced by `res.json()`. -/
inductive JVal where
  | str (s : String)
  | num (n : Int)
  | arr (xs : List JVal)
  | obj (fields : List (String × JVal))
  | null

/-- One entry appended to `verse_entries`: `(section[0], unit, cleaned
text)`.  The first two components come from the payload and are arbitrary
JSON values (the code never checks their type in the single-text branch). -/
abbrev Entry := JVal × JVal × String

/-- Python `dict.get(k, dflt)` on a parsed JSON object; `none` models the
`AttributeError` raised when the payload is not an object. -/
def pyGet (data : JVal) (k : String) (dflt : JVal) : Option JVal :=
  match data with
  | .obj fs => some ((lookupField fs k).getD dflt)
  | _ => none
where
  lookupField : List (String × JVal) → String → Option JVal
    | [], _ => none
    | (k', v) :: rest, k => if k' = k then some v else lookupField rest k

/-- Python indexing `v[i]`: list indexing, or single-character string
indexing; `none` models the `IndexError`/`TypeError` raised otherwise. -/
def jIndex (v : JVal) (i : Nat) : Option JVal :=
  match v with
  | .arr xs => xs.get? i
  | .str s => (s.data.get? i).map (fun c => .str (String.mk [c]))
  | _ => none

/-- `v[i]` required to be an `int` (as `enumerate(…, start=v[i])`
demands); `none` models the raised `TypeError`/`IndexError`. -/
def jIndexInt (v : JVal) (i : Nat) : Option Int :=
  match jIndex v i with
  | some (.num n) => some n
  | _ => none

/-- `remove_html_tags_and_entities` applied to a JSON value: only defined
on strings, `none` modelling the `TypeError` from `re.sub` otherwise. -/
def cleanJ (v : JVal) : Option String :=
  match v with
  | .str s => some (remove_html_tags_and_entities s)
  | _ => none

/-- The `for i, txt in enumerate(he, start=section[1])` loop.  Each step
cleans the element (raising on non-strings) and then reads `section[0]`;
an exception stops the loop, keeping the entries already appended.  The
boolean records whether the loop finished without raising. -/
def listLoop (sections : JVal) (start : Int) : List JVal → List Entry × Bool
  | [] => ([], true)
  | x :: rest =>
    match cleanJ x with
    | none => ([], false)
    | some txt =>
      match jIndex sections 0 with
      | none => ([], false)
      | some s0 =>
        let (es, ok) := listLoop sections (start + 1) rest
        ((s0, .num start, txt) :: es, ok)

/-- The parsing `try` block applied to one decoded payload: returns the
entries appended to `verse_entries` and whether parsing completed without
an exception. -/
def parsePayload (data : JVal) : List Entry × Bool :=
  match pyGet data "sections" (.arr [.num 1, .num 1]) with
  | none => ([], false)
  | some sections =>
    match pyGet data "he" (.arr []) with
    | none => ([], false)
    | some he =>
      match he with
      | .arr xs =>
        match jIndexInt sections 1 with
        | none => ([], false)
        | some b => listLoop sections b xs
      | _ =>
        match cleanJ he with
        | none => ([], false)
        | some txt =>
          match jIndex sections 0 with
          | none => ([], false)
          | some s0 =>
            match jIndex sections 1 with
            | none => ([], false)
            | some s1 => ([(s0, s1, txt)], true)

/-- Outcome of one HTTP attempt for a sub-reference: a 200 response whose
body decodes to `body`; a 200 response whose body is not valid JSON
(`res.json()` raises); a non-200 status; or a transport exception from
`requests.get`. -/
inductive HttpOutcome where
  | ok (body : JVal)
  | badJson
  | bad
  | exn

/-- Whether an outcome takes the failure path of the retry loop (sleep
and try again). -/
def HttpOutcome.isFail : HttpOutcome → Bool
  | .bad => true
  | .exn => true
  | _ => false

/-- What one sub-reference contributed: the number of HTTP attempts made,
the sleeps performed (in order, in seconds), whether the exhausted-retries
warning was logged, whether a parse error was logged, and the entries
appended to `verse_entries`. -/
structure FetchTrace where
  attempts : Nat
  sleeps : List Nat
  warned : Bool
  parseError : Bool
  entries : List Entry

/-- The retry loop from attempt number `attempt` with `remaining`
attempts left: returns the attempts made, the sleeps performed, and
`none` when retries were exhausted, `some none` on a 200 with an invalid
JSON body, `some (some body)` on a 200 with body `body`. -/
def runAttempts (outcomes : List HttpOutcome) : Nat → Nat → Nat × List Nat × Option (Option JVal)
  | _, 0 => (0, [], none)
  | attempt, remaining + 1 =>
    match outcomes.getD attempt .exn with
    | .ok body => (1, [], some (some body))
    | .badJson => (1, [], some none)
    | .bad =>
      let (a, s, res) := runAttempts outcomes (attempt + 1) remaining
      (a + 1, 2 ^ attempt :: s, res)
    | .exn =>
      let (a, s, res) := runAttempts outcomes (attempt + 1) remaining
      (a + 1, 2 ^ attempt :: s, res)

/-- One sub-reference of `get_sefaria_verse_entries`: run the retry loop,
then either warn and skip, or parse the body. -/
def fetchSub (outcomes : List HttpOutcome) (retries : Nat) : FetchTrace :=
  match runAttempts outcomes 0 retries with
  | (a, s, none) => ⟨a, s, true, false, []⟩
  | (a, s, some none) => ⟨a, s, false, true, []⟩
  | (a, s, some (some body)) =>
    let (es, ok) := parsePayload body
    ⟨a, s, false, !ok, es⟩

/-- `ref.split(',')` followed by `r.strip()` on each piece. -/
def subRefs (ref : String) : List String :=
  (ref.splitOn ",").map (fun r => ⟨pyStrip r.data⟩)

/-- The concatenation of entries over a list of sub-references, the
network oracle `net` giving each sub-reference its attempt outcomes. -/
def fetchList (net : String → List HttpOutcome) (retries : Nat) : List String → List Entry
  | [] => []
  | r :: rs => (fetchSub (net r) retries).entries ++ fetchList net retries rs

/-- latexbible.py, `get_sefaria_verse_entries`: split the reference on
commas, strip each piece, and accumulate the entries each sub-reference
contributes. -/
def get_sefaria_verse_entries (ref : String) (net : String → List HttpOutcome)
    (retries : Nat) : List Entry :=
  fetchList net retries (subRefs ref)

/-! ## The assembler: `generate_latex_from_schedule`

The function resumes from two files next to the output: a progress file
holding the last completed row index and a checkpoint file holding the
accumulated document.  It iterates over the schedule rows, skipping rows
`i <= last`; for each remaining row it appends the day's heading and one
formatted line per fetched verse, writes the whole accumulated document
to the checkpoint file and then the row index to the progress file.
After the loop it appends the closing line, writes the final `.tex` file
and deletes the checkpoint and then the progress file.

The fetcher is abstracted as a pure function from the day's reference
string to its `(chapter, verse, text)` entries — resume correctness is
stated under the assumption that refetching returns the same content.
Every write and delete is recorded as a distinct disk state, so crash
points are exactly the states of the trace. -/

/-- The on-disk state: contents of the checkpoint, progress and final
`.tex` files (`none` = absent). -/
structure Disk where
  checkpoint : Option String
  progress : Option Nat
  final : Option String
deriving DecidableEq, Repr

/-- A schedule row: the `Date` and `Bible` columns. -/
abbrev Row := String × String

/-- One formatted verse line of the LaTeX body. -/
def verseLine (e : Nat × Nat × String) : String :=
  "\\noindent\\textbf\x7b\\textsuperscript\x7b" ++ hebrew_number e.2.1 ++
    "\x7d\x7d " ++ escape_latex_special_chars e.2.2 ++ "\\\\\n"

/-- Right-fold string concatenation (Python's repeated `tex +=` is the
left fold; the two agree by associativity and this one is easier to
reason about). -/
def strJoin : List String → String
  | [] => ""
  | s :: rest => s ++ strJoin rest

/-- Everything one row appends to the document: section heading,
subsection heading, and one line per entry the fetcher returns. -/
def dayBlock (fetcher : String → List (Nat × Nat × String)) (row : Row) : String :=
  "\n\\section*\x7b" ++ row.1 ++ "\x7d\n\\subsection*\x7bתנ\"ך: " ++ row.2 ++
    "\x7d\n" ++ strJoin ((fetcher row.2).map verseLine)

/-- The LaTeX preamble the run starts from when no checkpoint exists
(the raw string in the source, `.strip()`ed, plus a newline). -/
def preamble : String :=
  "\\documentclass\x7barticle\x7d\n\\usepackage[utf8]\x7binputenc\x7d\n" ++
  "\\usepackage\x7bgeometry\x7d\n\\usepackage\x7bfontspec\x7d\n" ++
  "\\geometry\x7bmargin=1in\x7d\n\\usepackage\x7bpolyglossia\x7d\n" ++
  "\\setmainlanguage\x7bhebrew\x7d\n" ++
  "\\newfontfamily\\hebrewfont[Script=Hebrew]\x7bEzra SIL\x7d\n" ++
  "\\begin\x7bdocument\x7d\n\\tableofcontents\n\\newpage\n"

/-- The closing boilerplate appended after the loop. -/
def endDoc : String := "\n\\end\x7bdocument\x7d"

/-- `last`: the resumed row index, `-1` when no progress file exists. -/
def lastOf (d : Disk) : Int :=
  match d.progress with
  | some n => (n : Int)
  | none => -1

/-- The document the run starts from: the checkpoint if present, else the
preamble. -/
def texOf (d : Disk) : String :=
  match d.checkpoint with
  | some s => s
  | none => preamble

/-- Pair each element with its row index, starting at `k`. -/
def enumFrom (k : Nat) : List α → List (Nat × α)
  | [] => []
  | x :: xs => (k, x) :: enumFrom (k + 1) xs

/-- The row loop.  Returns the accumulated document, the disk after the
loop, and the list of intermediate disk states, one per file write (the
checkpoint write and then the progress write of each processed row). -/
def loopRun (fetcher : String → List (Nat × Nat × String)) (last : Int) :
    List (Nat × Row) → String → Disk → String × Disk × List Disk
  | [], tex, d => (tex, d, [])
  | (i, row) :: rest, tex, d =>
    if (i : Int) ≤ last then loopRun fetcher last rest tex d
    else
      let tex2 := tex ++ dayBlock fetcher row
      let d1 : Disk := { d with checkpoint := some tex2 }
      let d2 : Disk := { d1 with progress := some i }
      let (texF, dF, tr) := loopRun fetcher last rest tex2 d2
      (texF, dF, d1 :: d2 :: tr)

/-- The final document produced by a run started from disk state `d0`. -/
def runFinal (fetcher : String → List (Nat × Nat × String)) (rows : List Row)
    (d0 : Disk) : String :=
  (loopRun fetcher (lastOf d0) (enumFrom 0 rows) (texOf d0) d0).1 ++ endDoc

/-- Every disk state reachable during a run started from `d0`: the
initial state, one state per checkpoint/progress write, then the final
`.tex` write, the checkpoint deletion and the progress deletion. -/
def runStates (fetcher : String → List (Nat × Nat × String)) (rows : List Row)
    (d0 : Disk) : List Disk :=
  d0 :: (loopRun fetcher (lastOf d0) (enumFrom 0 rows) (texOf d0) d0).2.2 ++
    [⟨(loopRun fetcher (lastOf d0) (enumFrom 0 rows) (texOf d0) d0).2.1.checkpoint,
      (loopRun fetcher (lastOf d0) (enumFrom 0 rows) (texOf d0) d0).2.1.progress,
      some ((loopRun fetcher (lastOf d0) (enumFrom 0 rows) (texOf d0) d0).1 ++ endDoc)⟩,
     ⟨none,
      (loopRun fetcher (lastOf d0) (enumFrom 0 rows) (texOf d0) d0).2.1.progress,
      some ((loopRun fetcher (lastOf d0) (enumFrom 0 rows) (texOf d0) d0).1 ++ endDoc)⟩,
     ⟨none, none,
      some ((loopRun fetcher (lastOf d0) (enumFrom 0 rows) (texOf d0) d0).1 ++ endDoc)⟩]

/-- The accumulated document after the first `n` rows of an
uninterrupted run. -/
def docAfter (fetcher : String → List (Nat × Nat × String)) (rows : List Row)
    (n : Nat) : String :=
  preamble ++ strJoin ((rows.take n).map (dayBlock fetcher))

/-- The fresh disk: no checkpoint, no progress, no final artifact. -/
def freshDisk : Disk := ⟨none, none, none⟩

/-- The safety relation of claim C3 between the progress file and the
checkpoint file: whenever a progress index `p` is stored, the checkpoint
holds the document of the first `p + 1` or `p + 2` days (never fewer —
progress never runs ahead of content — and never more — progress lags by
at most one day); when no progress is stored, the checkpoint is absent or
holds exactly the first day. -/
def progressMatched (f : String → List (Nat × Nat × String)) (rows : List Row)
    (s : Disk) : Prop :=
  (∀ p, s.progress = some p →
    s.checkpoint = some (docAfter f rows (p + 1)) ∨
    s.checkpoint = some (docAfter f rows (p + 2))) ∧
  (s.progress = none → s.checkpoint = none ∨ s.checkpoint = some (docAfter f rows 1))

/-- Spec-side description of the fetcher's sequence-payload output (claim
C5): one entry per text element, all carrying the payload's declared
section `a`, numbered consecutively from the declared starting unit `b`,
each text cleaned. -/
def specConsecutiveEntries (a : Int) : Int → List String → List Entry
  | _, [] => []
  | b, t :: ts =>
    (.num a, .num b, remove_html_tags_and_entities t) :: specConsecutiveEntries a (b + 1) ts

theorem daily_countsI_ofNat (u d : Nat) :
    daily_countsI u (d : Int) = daily_counts u d := by
  unfold daily_countsI daily_counts
  rw [Int.fmod_eq_emod _ (by exact_mod_cast Nat.zero_le d),
    Int.fdiv_eq_ediv _ (by exact_mod_cast Nat.zero_le d)]
  norm_cast

theorem allocateE_pos (units : List α) (d : Nat) (hd : 0 < d) :
    allocateE units (d : Int) = .ok (allocate units d) := by
  unfold allocateE allocate
  rw [if_neg (by exact_mod_cast Nat.pos_iff_ne_zero.mp hd), daily_countsI_ofNat]

theorem bump_length (r : Nat) (xs : List Nat) : (bump r xs).length = xs.length := by
  induction xs generalizing r with
  | nil => cases r <;> rfl
  | cons x xs ih => cases r with
    | zero => rfl
    | succ r => simp [bump, ih]

theorem bump_sum (r : Nat) (xs : List Nat) :
    (bump r xs).sum = xs.sum + min r xs.length := by
  induction xs generalizing r with
  | nil => cases r <;> simp [bump]
  | cons x xs ih => cases r with
    | zero => simp [bump]
    | succ r => simp [bump, ih]; omega

theorem bump_getD (r : Nat) (xs : List Nat) (i : Nat) (hi : i < xs.length) :
    (bump r xs).getD i 0 = xs.getD i 0 + (if i < r then 1 else 0) := by
  induction xs generalizing r i with
  | nil => simp at hi
  | cons x xs ih =>
    cases r with
    | zero => simp [bump]
    | succ r =>
      cases i with
      | zero => simp [bump]
      | succ i =>
        simp only [bump, List.getD_cons_succ]
        rw [ih r i (by simpa using hi)]
        simp

theorem replicate_getD (d x i : Nat) (hi : i < d) :
    (List.replicate d x).getD i 0 = x := by
  induction d generalizing i with
  | zero => omega
  | succ d ih =>
    cases i with
    | zero => rfl
    | succ i => simpa [List.replicate] using ih i (by omega)

theorem daily_counts_length (u d : Nat) : (daily_counts u d).length = d := by
  simp [daily_counts, bump_length]

theorem daily_counts_sum (u d : Nat) (hd : 0 < d) : (daily_counts u d).sum = u := by
  unfold daily_counts
  rw [bump_sum]
  simp only [List.sum_replicate, smul_eq_mul, List.length_replicate]
  have h1 : u % d < d := Nat.mod_lt _ hd
  have h2 := Nat.div_add_mod u d
  omega

theorem daily_counts_getD (u d : Nat) (hd : 0 < d) (i : Nat) (hi : i < d) :
    (daily_counts u d).getD i 0 = u / d + (if i < u % d then 1 else 0) := by
  unfold daily_counts
  rw [bump_getD _ _ _ (by simpa using hi), replicate_getD _ _ _ hi]

theorem portionsGo_length (units : List α) (counts : List Nat) (idx : Nat) :
    (portionsGo units counts idx).length = counts.length := by
  induction counts generalizing idx with
  | nil => rfl
  | cons c cs ih => simp [portionsGo, ih]

theorem portionsGo_join (units : List α) (counts : List Nat) (idx : Nat) :
    (portionsGo units counts idx).flatten = (units.drop idx).take counts.sum := by
  induction counts generalizing idx with
  | nil => simp [portionsGo]
  | cons c cs ih =>
    simp only [portionsGo, List.flatten_cons, ih, List.sum_cons]
    rw [List.take_add, List.drop_drop]

theorem portionsGo_map_length (units : List α) (counts : List Nat) (idx : Nat)
    (h : idx + counts.sum ≤ units.length) :
    (portionsGo units counts idx).map List.length = counts := by
  induction counts generalizing idx with
  | nil => rfl
  | cons c cs ih =>
    simp only [portionsGo, List.map_cons, List.sum_cons] at *
    have h1 : (List.take c (List.drop idx units)).length = c := by
      simp only [List.length_take, List.length_drop]
      omega
    rw [h1, ih (idx + c) (by omega)]


theorem strJoin_append (a b : List String) :
    strJoin (a ++ b) = strJoin a ++ strJoin b := by
  induction a with
  | nil => simp [strJoin]
  | cons s rest ih => simp [strJoin, ih, String.append_assoc]

theorem take_succ_of_drop {rows : List α} {k : Nat} {r : α} {rs : List α}
    (h : rows.drop k = r :: rs) : rows.take (k + 1) = rows.take k ++ [r] := by
  induction k generalizing rows with
  | zero =>
    simp only [List.drop_zero] at h
    subst h
    rfl
  | succ k ih =>
    cases rows with
    | nil => simp at h
    | cons x rows' =>
      simp only [List.drop_succ_cons] at h
      simp [List.take_succ_cons, ih h]

theorem drop_succ_of_drop {rows : List α} {k : Nat} {r : α} {rs : List α}
    (h : rows.drop k = r :: rs) : rows.drop (k + 1) = rs := by
  have h1 : rows.drop (k + 1) = (rows.drop k).drop 1 := by
    rw [List.drop_drop]
  rw [h1, h]
  rfl

/-- Closed form of the document accumulated by the row loop: the starting
text followed by the blocks of every row whose index exceeds `last`. -/
theorem loopRun_tex (f : String → List (Nat × Nat × String)) (last : Int) :
    ∀ (rs : List Row) (k : Nat) (tex : String) (d : Disk),
    (loopRun f last (enumFrom k rs) tex d).1 =
      tex ++ strJoin ((rs.drop (last + 1 - k).toNat).map (dayBlock f)) := by
  intro rs
  induction rs with
  | nil => intro k tex d; simp [enumFrom, loopRun, strJoin]
  | cons r rs' ih =>
    intro k tex d
    simp only [enumFrom, loopRun]
    by_cases hk : (k : Int) ≤ last
    · rw [if_pos hk, ih (k + 1) tex d]
      have h1 : (last + 1 - (k : Int)).toNat = (last + 1 - ((k : Int) + 1)).toNat + 1 := by
        omega
      rw [h1]
      rfl
    · rw [if_neg hk]
      simp only
      rw [ih (k + 1) (tex ++ dayBlock f r) _]
      have h1 : (last + 1 - (k : Int)).toNat = 0 := by omega
      have h2 : (last + 1 - ((k + 1 : Nat) : Int)).toNat = 0 := by push_cast; omega
      rw [h1, h2]
      simp only [List.drop_zero, List.map_cons, strJoin, String.append_assoc]

/-- The final document of an uninterrupted run from the fresh disk. -/
theorem runFinal_fresh (f : String → List (Nat × Nat × String)) (rows : List Row) :
    runFinal f rows freshDisk = docAfter f rows rows.length ++ endDoc := by
  unfold runFinal docAfter
  rw [show lastOf freshDisk = -1 from rfl, show texOf freshDisk = preamble from rfl,
    loopRun_tex]
  simp [List.take_length]

/-- C2 (amended): if a run is interrupted at any point after the
checkpoint/progress pair for day `i` is complete and before the
checkpoint write for day `i + 1` — that is, while the disk holds the
checkpoint of exactly the first `i + 1` days and progress `i` —
restarting produces a final document identical to the uninterrupted
run's, assuming the fetcher returns the same content both times.  (An
interruption between the checkpoint write and the progress write of day
`i + 1` is excluded: `resume_refetches_checkpointed_day` shows it makes
the restart append day `i + 1` a second time.) -/
theorem runFinal_resume (f : String → List (Nat × Nat × String)) (rows : List Row)
    (i : Nat) :
    runFinal f rows ⟨some (docAfter f rows (i + 1)), some i, none⟩ =
      runFinal f rows freshDisk := by
  rw [runFinal_fresh]
  unfold runFinal
  rw [show lastOf ⟨some (docAfter f rows (i + 1)), some i, none⟩ = (i : Int) from rfl,
    show texOf ⟨some (docAfter f rows (i + 1)), some i, none⟩ = docAfter f rows (i + 1)
      from rfl, loopRun_tex]
  have h1 : ((i : Int) + 1 - ((0 : Nat) : Int)).toNat = i + 1 := by push_cast; omega
  rw [h1]
  have h2 : docAfter f rows (i + 1) ++ strJoin ((rows.drop (i + 1)).map (dayBlock f)) =
      docAfter f rows rows.length := by
    unfold docAfter
    rw [List.take_length, String.append_assoc, ← strJoin_append, ← List.map_append,
      List.take_append_drop]
  rw [h2]

/-- Invariant of the row loop in a fresh run: every intermediate disk
state satisfies `progressMatched` and leaves the final artifact absent. -/
theorem loopRun_states_inv (f : String → List (Nat × Nat × String)) (rows : List Row) :
    ∀ (rs : List Row) (k : Nat) (d : Disk),
    rows.drop k = rs →
    ((k = 0 ∧ d.progress = none) ∨ (0 < k ∧ d.progress = some (k - 1))) →
    d.final = none →
    ∀ s ∈ (loopRun f (-1) (enumFrom k rs) (docAfter f rows k) d).2.2,
      s.final = none ∧ progressMatched f rows s := by
  intro rs
  induction rs with
  | nil => intro k d _ _ _ s hs; simp [enumFrom, loopRun] at hs
  | cons r rs' ih =>
    intro k d hdrop hpre hfin s hs
    simp only [enumFrom, loopRun] at hs
    rw [if_neg (by omega : ¬ ((k : Int) ≤ -1))] at hs
    have hblock : docAfter f rows k ++ dayBlock f r = docAfter f rows (k + 1) := by
      unfold docAfter
      rw [take_succ_of_drop hdrop, List.map_append, strJoin_append, String.append_assoc]
      simp [strJoin]
    simp only [hblock] at hs
    simp only [List.mem_cons] at hs
    rcases hs with h1 | h2 | h3
    · subst h1
      refine ⟨hfin, ?_, ?_⟩
      · intro p hp
        simp only at hp
        rcases hpre with ⟨hk0, hprog⟩ | ⟨hkpos, hprog⟩
        · rw [hprog] at hp; cases hp
        · rw [hprog] at hp
          cases hp
          right
          simp only
          congr 2
          omega
      · intro hp
        rcases hpre with ⟨hk0, _⟩ | ⟨hkpos, hprog⟩
        · right; simp only; rw [hk0]
        · simp only at hp
          rw [hprog] at hp; cases hp
    · subst h2
      refine ⟨hfin, ?_, ?_⟩
      · intro p hp
        simp only [Option.some.injEq] at hp
        subst hp
        left
        rfl
      · intro hp
        exact Option.noConfusion hp
    · exact ih (k + 1)
        ⟨some (docAfter f rows (k + 1)), some k, d.final⟩
        (drop_succ_of_drop hdrop)
        (Or.inr ⟨Nat.succ_pos k, by simp⟩)
        hfin s h3

/-- C3 (amended): the assembler writes the accumulated document before
the progress index, so at every reachable disk state before the final
artifact is written, the stored progress marker never claims a day whose
content is absent from the stored checkpoint, and the checkpointed
content is never more than one day ahead of the progress marker
(`progressMatched`).  The restriction to states with no final artifact
is forced by `cleanup_deletes_checkpoint_before_progress`: the cleanup
phase deletes the checkpoint before the progress file, so after the
final `.tex` write the run passes through a state whose progress file
survives without any checkpoint. -/
theorem runStates_inv (f : String → List (Nat × Nat × String)) (rows : List Row)
    (s : Disk) (hs : s ∈ runStates f rows freshDisk) (hfin : s.final = none) :
    progressMatched f rows s := by
  unfold runStates at hs
  rcases List.mem_cons.mp hs with h0 | hs2
  · subst h0
    exact ⟨fun p hp => Option.noConfusion hp, fun _ => Or.inl rfl⟩
  rcases List.mem_append.mp hs2 with hloop | htail
  · have hpre : docAfter f rows 0 = texOf freshDisk := by
      unfold docAfter texOf freshDisk
      simp [strJoin]
    have := loopRun_states_inv f rows rows 0 freshDisk rfl
      (Or.inl ⟨rfl, rfl⟩) rfl s
    rw [hpre] at this
    exact (this hloop).2
  · exfalso
    simp only [List.mem_cons, List.not_mem_nil, or_false] at htail
    rcases htail with h | h | h <;> (subst h; simp at hfin)

/-! ## Claim theorems -/

/-- C9: the cleaning function strips markup tags and named/numeric
character references and trims surrounding whitespace; in particular it
maps `<b>Hello</b>&nbsp;World` to `HelloWorld`.  The second conjunct
shows the whitespace trimming, the third a numeric character reference. -/
theorem cleaning_strips_tags_entities_whitespace :
    remove_html_tags_and_entities "<b>Hello</b>&nbsp;World" = "HelloWorld" ∧
    remove_html_tags_and_entities "  <i>x</i>  " = "x" ∧
    remove_html_tags_and_entities "a &#60; b" = "a  b" :=
  ⟨rfl, rfl, rfl⟩

/-- C10: the Hebrew-numeral renderer returns the concatenation of the
letters for the hundreds, tens and units digits (in that order, each
looked up with an empty default, so a missing entry such as the hundreds
of 500 contributes nothing), except that 15 and 16 get their special
forms; 0 yields the empty string. -/
theorem hebrew_number_digitwise :
    (∀ num : Nat, hebrew_number num =
      if num = 15 then "טו"
      else if num = 16 then "טז"
      else hl (num / 100 * 100) ++ hl (num % 100 / 10 * 10) ++ hl (num % 10)) ∧
    hebrew_number 0 = "" ∧ hebrew_number 500 = "" := by
  refine ⟨?_, rfl, rfl⟩
  intro num
  unfold hebrew_number
  by_cases h15 : num = 15
  · rw [if_pos h15, if_pos h15]
  rw [if_neg h15, if_neg h15]
  by_cases h16 : num = 16
  · rw [if_pos h16, if_pos h16]
  rw [if_neg h16, if_neg h16]
  simp only
  have hunit : ∀ m : Nat, (if m ≠ 0 then hl m else "") = hl m := by
    intro m
    by_cases hm : m = 0
    · subst hm; rfl
    · rw [if_pos hm]
  by_cases h100 : 100 ≤ num
  · rw [if_pos h100, if_pos h100]
    have hmm : num % 100 % 10 = num % 10 := Nat.mod_mod_of_dvd num (by norm_num)
    by_cases h10 : 10 ≤ num % 100
    · rw [if_pos h10, if_pos h10, hmm, hunit]
    · rw [if_neg h10, if_neg h10]
      have e1 : num % 100 / 10 = 0 := Nat.div_eq_of_lt (by omega)
      have e2 : num % 100 = num % 10 := by omega
      rw [e1, e2, hunit]
      rfl
  · rw [if_neg h100, if_neg h100]
    have e0 : num / 100 = 0 := Nat.div_eq_of_lt (by omega)
    have e1 : num % 100 = num := Nat.mod_eq_of_lt (by omega)
    by_cases h10 : 10 ≤ num
    · rw [if_pos h10, if_pos h10, e0, e1, hunit]
      rfl
    · rw [if_neg h10, if_neg h10, e0, e1]
      have e2 : num / 10 = 0 := Nat.div_eq_of_lt (by omega)
      have e3 : num % 10 = num := Nat.mod_eq_of_lt (by omega)
      rw [e2, e3, hunit]
      rfl

/-- C1: for every unit list and positive day count, the allocation (the
faithful integer-semantics model agreeing with its positive-day
specialisation) produces `d` ordered groups partitioning the units in
order with no unit split across days; the group sizes are exactly
`daily_counts`, they sum to the unit count, and group `i` has size
`u / d` plus one exactly when `i < u % d` (so the larger groups are
precisely the first `u mod d`). -/
theorem allocate_partitions_evenly {α : Type} (units : List α) (d : Nat) (hd : 0 < d) :
    allocateE units (d : Int) = .ok (allocate units d) ∧
    (allocate units d).length = d ∧
    (allocate units d).flatten = units ∧
    (allocate units d).map List.length = daily_counts units.length d ∧
    ((allocate units d).map List.length).sum = units.length ∧
    (∀ i, i < d → ((allocate units d).map List.length).getD i 0 =
      units.length / d + (if i < units.length % d then 1 else 0)) := by
  have hsum : (daily_counts units.length d).sum = units.length := daily_counts_sum _ _ hd
  have hmap : (allocate units d).map List.length = daily_counts units.length d := by
    unfold allocate
    exact portionsGo_map_length _ _ 0 (by omega)
  refine ⟨allocateE_pos units d hd, ?_, ?_, hmap, ?_, ?_⟩
  · unfold allocate
    rw [portionsGo_length, daily_counts_length]
  · unfold allocate
    rw [portionsGo_join, hsum, List.drop_zero, List.take_length]
  · rw [hmap, hsum]
  · intro i hi
    rw [hmap, daily_counts_getD _ _ hd _ hi]

/-- C1 witness: 10 units over 3 days give the groups
`[1..4], [5..7], [8..10]` — sizes `[4, 3, 3]`, first day units 1–4. -/
theorem allocate_partitions_evenly_witness :
    (allocate ([1, 2, 3, 4, 5, 6, 7, 8, 9, 10] : List Nat) 3).flatten =
      [1, 2, 3, 4, 5, 6, 7, 8, 9, 10] ∧
    (allocate ([1, 2, 3, 4, 5, 6, 7, 8, 9, 10] : List Nat) 3).map List.length =
      [4, 3, 3] ∧
    (allocate ([1, 2, 3, 4, 5, 6, 7, 8, 9, 10] : List Nat) 3).headD [] = [1, 2, 3, 4] :=
  ⟨(allocate_partitions_evenly [1, 2, 3, 4, 5, 6, 7, 8, 9, 10] 3 (by decide)).2.2.1,
    by decide, by decide⟩

/-- C7 counterexample: for a negative day count the allocation does not
fail at all — it succeeds with an empty allocation list — and for a zero
day count it fails with `ZeroDivisionError`; there is no
`InvalidWindowError` anywhere in the code. -/
theorem allocation_negative_days_succeeds :
    allocateE ([1, 2, 3] : List Nat) (-2) = .ok [] ∧
    allocateE ([1, 2, 3] : List Nat) 0 = .error .zeroDivisionError :=
  ⟨rfl, rfl⟩

/-- C7 (amended): when the day count is zero the allocation raises
Python's `ZeroDivisionError` (uncaught, hence fatal), and when it is
negative the allocation silently succeeds with an empty list of day
allocations; no `InvalidWindowError` exists. -/
theorem allocation_nonpositive_days {α : Type} (units : List α) :
    allocateE units 0 = .error .zeroDivisionError ∧
    (∀ d : Int, d < 0 → allocateE units d = .ok []) := by
  refine ⟨rfl, ?_⟩
  intro d hd
  unfold allocateE
  rw [if_neg (by omega)]
  unfold daily_countsI
  rw [show d.toNat = 0 from Int.toNat_of_nonpos (by omega), List.replicate_zero]
  cases h : ((units.length : Int).fmod d).toNat <;> rfl

/-- C7 witness: the amended behaviour at concrete inputs. -/
theorem allocation_nonpositive_days_witness :
    allocateE ([10, 20, 30] : List Nat) 0 = .error .zeroDivisionError ∧
    allocateE ([10, 20, 30] : List Nat) (-5) = .ok [] :=
  ⟨(allocation_nonpositive_days [10, 20, 30]).1,
    (allocation_nonpositive_days [10, 20, 30]).2 (-5) (by decide)⟩

theorem getD_nil_of_length_zero {α : Type} :
    ∀ (l : List (List α)) (i : Nat), (l.map List.length).getD i 0 = 0 →
    l.getD i [] = [] := by
  intro l
  induction l with
  | nil => intro i _; cases i <;> rfl
  | cons x xs ih =>
    intro i h
    cases i with
    | zero =>
      simp only [List.map_cons, List.getD_cons_zero] at h ⊢
      exact List.eq_nil_of_length_eq_zero h
    | succ i =>
      simp only [List.map_cons, List.getD_cons_succ] at h ⊢
      exact ih i h

/-- C8: allocating fewer units than days succeeds: 0 units over 5 days
give exactly five empty day allocations; in general every day whose
index is past the unit count receives the empty group; and an empty day
renders downstream as a bare day heading with no verse lines rather than
an error. -/
theorem empty_days_allowed :
    allocateE ([] : List String) 5 = .ok [[], [], [], [], []] ∧
    (∀ {α : Type} (units : List α) (d : Nat), 0 < d →
      ∀ i, units.length ≤ i → i < d → (allocate units d).getD i [] = []) ∧
    (∀ (date : String) (f : String → List (Nat × Nat × String)), f "" = [] →
      dayBlock f (date, "") =
        "\n\\section*\x7b" ++ date ++ "\x7d\n\\subsection*\x7bתנ\"ך: \x7d\n") := by
  refine ⟨rfl, ?_, ?_⟩
  · intro α units d hd i hu hi
    apply getD_nil_of_length_zero
    have hmap : (allocate units d).map List.length = daily_counts units.length d := by
      unfold allocate
      exact portionsGo_map_length _ _ 0 (by rw [daily_counts_sum _ _ hd]; omega)
    rw [hmap, daily_counts_getD _ _ hd _ hi]
    have hud : units.length < d := by omega
    rw [Nat.div_eq_of_lt hud, Nat.mod_eq_of_lt hud, if_neg (by omega)]
  · intro date f h
    unfold dayBlock
    rw [h]
    simp only [List.map_nil, strJoin, String.append_empty, String.append_assoc]
    congr 1

/-- C8 witness: day 5 of the 0-unit, 5-day allocation is empty, and an
empty day renders as its bare headings. -/
theorem empty_days_allowed_witness :
    (allocate ([] : List Nat) 5).getD 4 [] = [] ∧
    dayBlock (fun _ => []) ("2025-01-01", "") =
      "\n\\section*\x7b2025-01-01\x7d\n\\subsection*\x7bתנ\"ך: \x7d\n" :=
  ⟨empty_days_allowed.2.1 ([] : List Nat) 5 (by decide) 4 (by decide) (by decide),
    empty_days_allowed.2.2 "2025-01-01" (fun _ => []) rfl⟩

theorem runAttempts_le (outcomes : List HttpOutcome) :
    ∀ (remaining attempt : Nat), (runAttempts outcomes attempt remaining).1 ≤ remaining := by
  intro remaining
  induction remaining with
  | zero => intro attempt; exact Nat.le_refl 0
  | succ remaining ih =>
    intro attempt
    unfold runAttempts
    cases outcomes.getD attempt .exn
    · exact Nat.succ_le_succ (Nat.zero_le _)
    · exact Nat.succ_le_succ (Nat.zero_le _)
    · have hle := ih (attempt + 1)
      rcases hr : runAttempts outcomes (attempt + 1) remaining with ⟨a, s, res⟩
      rw [hr] at hle
      simp only [hr]
      exact Nat.succ_le_succ hle
    · have hle := ih (attempt + 1)
      rcases hr : runAttempts outcomes (attempt + 1) remaining with ⟨a, s, res⟩
      rw [hr] at hle
      simp only [hr]
      exact Nat.succ_le_succ hle

theorem runAttempts_allFail (outcomes : List HttpOutcome) :
    ∀ (remaining attempt : Nat),
    (∀ j, j < remaining → (outcomes.getD (attempt + j) .exn).isFail = true) →
    runAttempts outcomes attempt remaining =
      (remaining, (List.range' attempt remaining).map (2 ^ ·), none) := by
  intro remaining
  induction remaining with
  | zero => intro attempt _; rfl
  | succ remaining ih =>
    intro attempt hfail
    have h0 := hfail 0 (Nat.succ_pos _)
    rw [Nat.add_zero] at h0
    have hrec := ih (attempt + 1) (fun j hj => by
      have := hfail (j + 1) (by omega)
      rwa [show attempt + (j + 1) = attempt + 1 + j by omega] at this)
    unfold runAttempts
    cases houtcome : outcomes.getD attempt .exn
    · rw [houtcome] at h0; cases h0
    · rw [houtcome] at h0; cases h0
    · simp only [hrec, List.range'_succ, List.map_cons]
    · simp only [hrec, List.range'_succ, List.map_cons]

theorem runAttempts_success (outcomes : List HttpOutcome) :
    ∀ (k remaining attempt : Nat) (body : JVal),
    k < remaining →
    (∀ j, j < k → (outcomes.getD (attempt + j) .exn).isFail = true) →
    outcomes.getD (attempt + k) .exn = .ok body →
    runAttempts outcomes attempt remaining =
      (k + 1, (List.range' attempt k).map (2 ^ ·), some (some body)) := by
  intro k
  induction k with
  | zero =>
    intro remaining attempt body hk _ hok
    rw [Nat.add_zero] at hok
    cases remaining with
    | zero => omega
    | succ remaining =>
      unfold runAttempts
      rw [hok]
      rfl
  | succ k ih =>
    intro remaining attempt body hk hfail hok
    cases remaining with
    | zero => omega
    | succ remaining =>
      have h0 := hfail 0 (Nat.succ_pos _)
      rw [Nat.add_zero] at h0
      have hrec := ih remaining (attempt + 1) body (by omega)
        (fun j hj => by
          have := hfail (j + 1) (by omega)
          rwa [show attempt + (j + 1) = attempt + 1 + j by omega] at this)
        (by rwa [show attempt + 1 + k = attempt + (k + 1) by omega])
      unfold runAttempts
      cases houtcome : outcomes.getD attempt .exn
      · rw [houtcome] at h0; cases h0
      · rw [houtcome] at h0; cases h0
      · simp only [hrec, List.range'_succ, List.map_cons]
      · simp only [hrec, List.range'_succ, List.map_cons]

theorem fetchList_append (net : String → List HttpOutcome) (retries : Nat) :
    ∀ (a b : List String),
    fetchList net retries (a ++ b) = fetchList net retries a ++ fetchList net retries b := by
  intro a b
  induction a with
  | nil => rfl
  | cons r rs ih => simp [fetchList, ih]

/-- C4: each sub-reference makes at most `retries` HTTP attempts; when
every attempt fails the loop makes exactly `retries` attempts, sleeping
`2 ^ attempt` seconds after the failure of attempt number `attempt`
(attempts counted from 0, so the sleep separating attempt `j` from
attempt `j + 1` is `2 ^ j`), logs the exhausted-retries warning and
contributes no entries; when attempt `k` is the first to return a 200
response the loop stops after `k + 1` attempts having slept
`2 ^ 0, …, 2 ^ (k - 1)`; and a failed sub-reference only omits its own
entries — the other sub-references of the day are still fetched and
their entries kept. -/
theorem fetch_retry_policy (outcomes : List HttpOutcome) (retries : Nat) :
    (fetchSub outcomes retries).attempts ≤ retries ∧
    ((∀ j, j < retries → (outcomes.getD j .exn).isFail = true) →
      fetchSub outcomes retries =
        ⟨retries, (List.range retries).map (2 ^ ·), true, false, []⟩) ∧
    (∀ k body, k < retries →
      (∀ j, j < k → (outcomes.getD j .exn).isFail = true) →
      outcomes.getD k .exn = .ok body →
      fetchSub outcomes retries =
        ⟨k + 1, (List.range k).map (2 ^ ·), false, !(parsePayload body).2,
          (parsePayload body).1⟩) ∧
    (∀ (net : String → List HttpOutcome) (pre post : List String) (r : String),
      net r = outcomes →
      fetchList net retries (pre ++ r :: post) =
        fetchList net retries pre ++ (fetchSub outcomes retries).entries ++
          fetchList net retries post) := by
  refine ⟨?_, ?_, ?_, ?_⟩
  · unfold fetchSub
    have h := runAttempts_le outcomes retries 0
    rcases hr : runAttempts outcomes 0 retries with ⟨a, s, res⟩
    rw [hr] at h
    match res with
    | none => exact h
    | some none => exact h
    | some (some body) => exact h
  · intro hfail
    unfold fetchSub
    rw [runAttempts_allFail outcomes retries 0 (fun j hj => by simpa using hfail j hj),
      List.range_eq_range']
  · intro k body hk hfail hok
    unfold fetchSub
    rw [runAttempts_success outcomes k retries 0 body hk
      (fun j hj => by simpa using hfail j hj) (by simpa using hok),
      List.range_eq_range']
  · intro net pre post r hnet
    rw [fetchList_append]
    show fetchList net retries pre ++
      ((fetchSub (net r) retries).entries ++ fetchList net retries post) = _
    rw [hnet, List.append_assoc]

/-- C4 witness: with two failing attempts and `retries = 2` the loop
makes 2 attempts, sleeps 1 then 2 seconds, warns and contributes
nothing; with a success on the second of five allowed attempts it makes
2 attempts and sleeps only once. -/
theorem fetch_retry_policy_witness :
    fetchSub [.bad, .exn] 2 = ⟨2, [1, 2], true, false, []⟩ ∧
    fetchSub [.bad, .ok (.obj [("sections", .arr [.num 1, .num 1]), ("he", .arr [])])] 5 =
      ⟨2, [1], false, false, []⟩ := by
  constructor
  · have h := (fetch_retry_policy [.bad, .exn] 2).2.1 (by decide)
    rw [h]
    rfl
  · have h := (fetch_retry_policy
        [.bad, .ok (.obj [("sections", .arr [.num 1, .num 1]), ("he", .arr [])])] 5).2.2.1
      1 (.obj [("sections", .arr [.num 1, .num 1]), ("he", .arr [])]) (by decide)
      (by
        intro j hj
        have hj0 : j = 0 := by omega
        subst hj0
        rfl)
      rfl
    rw [h]
    rfl

theorem listLoop_str (a b0 : Int) :
    ∀ (texts : List String) (b : Int),
    listLoop (.arr [.num a, .num b0]) b (texts.map .str) =
      (specConsecutiveEntries a b texts, true) := by
  intro texts
  induction texts with
  | nil => intro b; rfl
  | cons t ts ih =>
    intro b
    simp only [List.map_cons, listLoop, cleanJ, jIndex, List.get?, specConsecutiveEntries]
    rw [ih (b + 1)]

/-- C5: for a payload whose `sections` field is `[a, b]`, a sequence
text field yields one entry per element, all carrying section `a`,
numbered consecutively from `b`; a single text value yields exactly one
entry carrying the declared section and unit numbers. -/
theorem fetch_payload_shapes (a b : Int) (fs : List (String × JVal))
    (hs : pyGet.lookupField fs "sections" = some (.arr [.num a, .num b])) :
    (∀ texts : List String,
      pyGet.lookupField fs "he" = some (.arr (texts.map .str)) →
      parsePayload (.obj fs) = (specConsecutiveEntries a b texts, true)) ∧
    (∀ t : String, pyGet.lookupField fs "he" = some (.str t) →
      parsePayload (.obj fs) = ([(.num a, .num b, remove_html_tags_and_entities t)], true)) := by
  have hsections : pyGet (.obj fs) "sections" (.arr [.num 1, .num 1]) =
      some (.arr [.num a, .num b]) := by
    show some ((pyGet.lookupField fs "sections").getD (.arr [.num 1, .num 1])) = _
    rw [hs]
    rfl
  constructor
  · intro texts hhe
    have hhe2 : pyGet (.obj fs) "he" (.arr []) = some (.arr (texts.map .str)) := by
      show some ((pyGet.lookupField fs "he").getD (.arr [])) = _
      rw [hhe]
      rfl
    unfold parsePayload
    rw [hsections, hhe2]
    exact listLoop_str a b texts b
  · intro t hhe
    have hhe2 : pyGet (.obj fs) "he" (.arr []) = some (.str t) := by
      show some ((pyGet.lookupField fs "he").getD (.arr [])) = _
      rw [hhe]
      rfl
    unfold parsePayload
    rw [hsections, hhe2]
    rfl

/-- C5 witness: a two-element sequence payload and a single-text payload,
with `sections = [2, 5]`. -/
theorem fetch_payload_shapes_witness :
    parsePayload (.obj [("sections", .arr [.num 2, .num 5]),
        ("he", .arr [.str "x", .str "y"])]) =
      (specConsecutiveEntries 2 5 ["x", "y"], true) ∧
    parsePayload (.obj [("sections", .arr [.num 2, .num 5]), ("he", .str "z")]) =
      ([(.num 2, .num 5, remove_html_tags_and_entities "z")], true) :=
  ⟨(fetch_payload_shapes 2 5 [("sections", .arr [.num 2, .num 5]),
      ("he", .arr [.str "x", .str "y"])] rfl).1 ["x", "y"] rfl,
    (fetch_payload_shapes 2 5 [("sections", .arr [.num 2, .num 5]),
      ("he", .str "z")] rfl).2 "z" rfl⟩

/-- C6 counterexample: a payload missing the `sections` field entirely —
not the documented shape — is not treated as a parse failure: the code
defaults `sections` to `[1, 1]` and emits the entry `(1, 1, "hello")`
with the parse flagged as successful, contradicting both "any shape other
than the documented one yields a parse failure rather than emitted
content" and "contributes an empty result". -/
theorem malformed_payload_emits_content :
    parsePayload (.obj [("he", .str "hello")]) = ([(.num 1, .num 1, "hello")], true) :=
  rfl

/-- C6 (amended): payloads that make the parser raise — a non-object
body, a `sections` list with no second element, a non-string text
element — are caught per sub-reference and logged; the sub-reference
contributes exactly the entries emitted before the failure (empty when
it fails at once, partial when a later element is bad), and the
remaining sub-references are still fetched; however, a payload missing
`sections` or `he` is not a parse failure: the missing fields are
defaulted (`[1, 1]` and the empty list), so such payloads can emit
content. -/
theorem parse_failures_isolated :
    parsePayload (.str "oops") = ([], false) ∧
    parsePayload (.obj [("sections", .arr [.num 3]), ("he", .arr [.str "a"])]) =
      ([], false) ∧
    parsePayload (.obj [("sections", .arr [.num 3, .num 7]),
        ("he", .arr [.str "good", .num 9])]) =
      ([(.num 3, .num 7, "good")], false) ∧
    parsePayload (.obj [("he", .str "hello")]) = ([(.num 1, .num 1, "hello")], true) ∧
    (∀ (net : String → List HttpOutcome) (retries : Nat)
      (pre post : List String) (r : String),
      fetchList net retries (pre ++ r :: post) =
        fetchList net retries pre ++ (fetchSub (net r) retries).entries ++
          fetchList net retries post) := by
  refine ⟨rfl, rfl, rfl, rfl, ?_⟩
  intro net retries pre post r
  rw [fetchList_append]
  show fetchList net retries pre ++
    ((fetchSub (net r) retries).entries ++ fetchList net retries post) = _
  rw [List.append_assoc]

/-- C2 counterexample: with a two-day schedule and a fetcher returning
no verses, the disk state reached between the checkpoint write and the
progress write of day 1 (checkpoint holding days 0 and 1, progress still
0) lies inside the claim's interruption window — after the pair for day
0 is written and before the pair for day 1 is complete — yet restarting
from it yields a final document different from the uninterrupted run's:
day 1's content is appended a second time. -/
theorem resume_refetches_checkpointed_day :
    ((⟨some (docAfter (fun _ => []) [("D1", "R1"), ("D2", "R2")] 2), some 0, none⟩ : Disk) ∈
      runStates (fun _ => []) [("D1", "R1"), ("D2", "R2")] freshDisk) ∧
    runFinal (fun _ => []) [("D1", "R1"), ("D2", "R2")]
        ⟨some (docAfter (fun _ => []) [("D1", "R1"), ("D2", "R2")] 2), some 0, none⟩ ≠
      runFinal (fun _ => []) [("D1", "R1"), ("D2", "R2")] freshDisk :=
  ⟨by set_option maxRecDepth 100000 in decide, by set_option maxRecDepth 100000 in decide⟩

/-- C3 counterexample: in a one-day run the fifth disk state — reached
after the final `.tex` write, when the cleanup has deleted the
checkpoint but not yet the progress file — has a progress marker
claiming day 0 while no checkpoint document is stored at all, so the
claim's "at no reachable point in the run does the stored progress
marker claim a day whose content is absent from the stored checkpoint"
fails at that reachable point. -/
theorem cleanup_deletes_checkpoint_before_progress :
    4 < (runStates (fun _ => []) [("D1", "R1")] freshDisk).length ∧
    ((runStates (fun _ => []) [("D1", "R1")] freshDisk).getD 4 freshDisk).progress =
      some 0 ∧
    ((runStates (fun _ => []) [("D1", "R1")] freshDisk).getD 4 freshDisk).checkpoint =
      none :=
  ⟨by set_option maxRecDepth 100000 in decide,
    by set_option maxRecDepth 100000 in decide,
    by set_option maxRecDepth 100000 in decide⟩

/-- C3 witness: the state written right after day 0's progress write in
a one-day run satisfies the progress/checkpoint pairing relation. -/
theorem runStates_inv_witness :
    progressMatched (fun _ => []) [("D1", "R1")]
      ⟨some (docAfter (fun _ => []) [("D1", "R1")] 1), some 0, none⟩ :=
  runStates_inv (fun _ => []) [("D1", "R1")] _
    (by set_option maxRecDepth 100000 in decide) rfl

end LatexBible
